import Mathlib

/-!
Shallow embedding of the benchplot core (package plot): the aesthetic
registry, the value model, projections, plot assembly, the Summarize and
Compare transforms and the continuous scale, together with theorems about
the behaviour of these functions.  External collaborators (the benchproc
record source, the benchmath statistics provider and the benchunit
unit-scaling provider) enter as explicit function parameters, following
their boundary contracts.  Machine floats are modelled as rationals.
-/

set_option linter.unusedVariables false

/-- Aesthetic dimension: one of the five fixed visual channels (source: Aes). -/
inductive Aes where
  | AesX
  | AesY
  | AesColor
  | AesRow
  | AesCol
deriving DecidableEq, Repr

/-- Short name of an aesthetic (source: Aes.Name). -/
def Aes.Name : Aes → String
  | .AesX => "x"
  | .AesY => "y"
  | .AesColor => "color"
  | .AesRow => "row"
  | .AesCol => "col"

/-- The fixed iteration order over aesthetics (the source loops aes from 0 to aesMax). -/
def aesList : List Aes := [.AesX, .AesY, .AesColor, .AesRow, .AesCol]

/-- Dense map keyed by aesthetic (source: aesMap, a 5-element array). -/
structure aesMap (T : Type) where
  ax : T
  ay : T
  acolor : T
  arow : T
  acol : T
deriving DecidableEq, Repr

instance {T : Type} [Inhabited T] : Inhabited (aesMap T) :=
  ⟨⟨default, default, default, default, default⟩⟩

/-- O(1) lookup (source: aesMap.Get). -/
def aesMap.Get {T : Type} (m : aesMap T) : Aes → T
  | .AesX => m.ax
  | .AesY => m.ay
  | .AesColor => m.acolor
  | .AesRow => m.arow
  | .AesCol => m.acol

/-- O(1) update (source: aesMap.Set). -/
def aesMap.Set {T : Type} (m : aesMap T) (a : Aes) (v : T) : aesMap T :=
  match a with
  | .AesX => { m with ax := v }
  | .AesY => { m with ay := v }
  | .AesColor => { m with acolor := v }
  | .AesRow => { m with arow := v }
  | .AesCol => { m with acol := v }

/-- Structural copy (source: aesMap.Copy returns *m, a value copy of the array). -/
def aesMap.Copy {T : Type} (m : aesMap T) : aesMap T := m

/-- A projection field, restricted to the parts the core reads (source: benchproc.Field). -/
structure BField where
  name : String
  isTuple : Bool
deriving DecidableEq, Repr

/-- A projected key, modelled as its field-to-string mapping (source: benchproc.Key). -/
structure Key where
  entries : List (BField × String)
deriving DecidableEq, Repr

instance : Inhabited Key := ⟨⟨[]⟩⟩

/-- BField lookup on a key (source: benchproc.Key.Get). -/
def Key.get (k : Key) (f : BField) : String :=
  match k.entries.find? (fun p => decide (p.1 = f)) with
  | some p => p.2
  | none => ""

/-- Lexicographic order on character lists (ASCII string order). -/
def charsLt : List Char → List Char → Bool
  | [], [] => false
  | [], _ :: _ => true
  | _ :: _, [] => false
  | c :: cs, d :: ds =>
    if c.toNat < d.toNat then true
    else if d.toNat < c.toNat then false
    else charsLt cs ds

/-- Lexicographic string order over the underlying characters. -/
def strLt (a b : String) : Bool := charsLt a.data b.data

/-- Modelled from the external benchproc key order (Key.Less): lexicographic on the
keys' per-field value strings. -/
def keyLess (a b : Key) : Bool :=
  let rec go : List (BField × String) → List (BField × String) → Bool
    | [], [] => false
    | [], _ :: _ => true
    | _ :: _, [] => false
    | p :: ps, q :: qs =>
      if strLt p.2 q.2 then true
      else if strLt q.2 p.2 then false
      else go ps qs
  go a.entries b.entries

/-- Three-way key comparison (source: compareKeys). -/
def compareKeys (a b : Key) : Int :=
  if a = b then 0 else if keyLess a b then -1 else 1

/-- Kind bit: categorical value (source: kindDiscrete). -/
def kindDiscrete : Nat := 1

/-- Kind bit: numeric value (source: kindContinuous). -/
def kindContinuous : Nat := 2

/-- Kind bit: statistical summary, implies continuous (source: kindSummary). -/
def kindSummary : Nat := 4

/-- Kind bit: baseline-relative ratio (source: kindRatio). -/
def kindRatio : Nat := 8

/-- One past the last kind bit (source: kindMax). -/
def kindMax : Nat := 16

/-- All kind bits (source: kindAll = kindMax - 1). -/
def kindAll : Nat := kindMax - 1

/-- Confidence-interval summary supplied by the external statistics provider
(source: benchmath.Summary; Lo may be negative infinity in the source, which the
development never inspects). -/
structure Summary where
  center : Rat
  lo : Rat
  hi : Rat
deriving DecidableEq, Repr

/-- A classified value: a kind bitset plus the payloads (source: value). -/
structure value where
  kinds : Nat
  key : Key
  val : Rat
  summary : Option Summary
  denom : Key
deriving DecidableEq, Repr

instance : Inhabited value := ⟨⟨0, ⟨[]⟩, 0, none, ⟨[]⟩⟩⟩

/-- Fallback kind-precedence order of value.compare: the source iterates kind over
0..kindMax-1 and panics when the loop completes (incomparable kinds); the loop can
only complete when the two kind sets are equal, where this model returns 0. -/
def kindOrder (k1 k2 : Nat) : List Nat → Int
  | [] => 0
  | kind :: rest =>
    if k1 &&& kind ≠ 0 ∧ k2 &&& kind = 0 then -1
    else if k1 &&& kind = 0 ∧ k2 &&& kind ≠ 0 then 1
    else kindOrder k1 k2 rest

/-- Three-way comparison of continuous payloads (source: cmp.Compare on float64). -/
def ratCmp (a b : Rat) : Int := if a < b then -1 else if b < a then 1 else 0

/-- Value comparison (source: value.compare). -/
def value.compare (v v2 : value) : Int :=
  if v.kinds &&& v2.kinds &&& kindDiscrete ≠ 0 then
    if compareKeys v.key v2.key ≠ 0 then compareKeys v.key v2.key
    else if v.kinds &&& kindRatio ≠ 0 then compareKeys v.denom v2.denom
    else 0
  else if v.kinds &&& v2.kinds &&& kindContinuous ≠ 0 then ratCmp v.val v2.val
  else kindOrder v.kinds v2.kinds (List.range kindMax)

/-- A point: exactly one value per aesthetic (source: point). -/
abbrev point := aesMap value

/-- Setting a value at an optional aesthetic.  The source stores the absent case as
the sentinel aesNone = -1; indexing the array with it would fault, and NewPlot
guarantees the only caller (the unit path of Add) always has a .value aesthetic. -/
def pointSetOpt (pt : point) (a : Option Aes) (v : value) : point :=
  match a with
  | some a => pt.Set a v
  | none => pt

/-- The field list of an external benchproc.Projection, as read by Config.SetIV. -/
structure BProj where
  fields : List BField

/-- A benchmark record at the core's boundary (source: benchfmt.Result).  It
supplies the external projection results (benchproc Project / ProjectValues) and
the per-unit metric lookup (Result.Value, returning (float64, found)). -/
structure Result where
  projectKey : BProj → Key
  projectValues : BProj → List Key
  valueForUnit : String → Option Rat

/-- Per-aesthetic binding (source: projection).  The zero value is the unbound
projection. -/
structure projection where
  iv : Option BProj := none
  ivField : Option BField := none
  unitField : Option BField := none
  dv : Bool := false

instance : Inhabited projection := ⟨{}⟩

/-- Record-to-values mapping (source: projection.project).  parseFloat abstracts
strconv.ParseFloat.  The dv case panics in the source ("cannot project DV");
Plot.Add never projects the .value aesthetic, and the case is modelled as the
empty fan-out. -/
def projection.project (parseFloat : String → Option Rat) (p : projection) (r : Result) :
    List value :=
  if p.dv then []
  else
    match p.iv with
    | none => [{ kinds := kindDiscrete, key := ⟨[]⟩, val := 0, summary := none, denom := ⟨[]⟩ }]
    | some iv =>
      let values : List value :=
        match p.unitField with
        | some _ => (r.projectValues iv).map (fun key =>
            { kinds := kindDiscrete, key := key, val := 0, summary := none, denom := ⟨[]⟩ })
        | none =>
          [{ kinds := kindDiscrete, key := r.projectKey iv, val := 0, summary := none,
             denom := ⟨[]⟩ }]
      match p.ivField with
      | none => values
      | some f => values.map (fun v =>
          match parseFloat (v.key.get f) with
          | some x => { v with kinds := v.kinds ||| kindContinuous, val := x }
          | none => v)

/-- Textual form of a projection (source: projection.String; FlattenedFields is
modelled by the projection's field list). -/
def projection.str (p : projection) : String :=
  if p.dv then ".value"
  else
    match p.iv with
    | some iv => String.intercalate "," (iv.fields.map (fun f => f.name))
    | none => "<nil>"

/-- Plot configuration (source: Config). -/
structure Config where
  aes : aesMap projection
  logScale : aesMap Int

/-- Source: NewConfig (the zero configuration). -/
def NewConfig : Config := { aes := default, logScale := ⟨0, 0, 0, 0, 0⟩ }

/-- Source: Config.SetIV — maps independent variable iv to aesthetic aes. -/
def Config.SetIV (c : Config) (aes : Aes) (iv : BProj) : Config :=
  let fields := iv.fields
  let ivField : Option BField :=
    match fields with
    | [f] => if f.isTuple then none else some f
    | _ => none
  let unitField : Option BField :=
    fields.foldl (fun acc f => if f.name = ".unit" then some f else acc) none
  let proj : projection :=
    { iv := some iv, ivField := ivField, unitField := unitField, dv := false }
  { c with aes := c.aes.Set aes proj }

/-- Source: Config.SetDV — maps the dependent variable to aesthetic aes. -/
def Config.SetDV (c : Config) (aes : Aes) : Config :=
  { c with aes := c.aes.Set aes ({ dv := true }) }

/-- Source: Config.SetLogScale. -/
def Config.SetLogScale (c : Config) (aes : Aes) (base : Int) : Config :=
  { c with logScale := c.logScale.Set aes base }

/-- The plot state (source: Plot; the unit-metadata map is not part of the core
covered here). -/
structure Plot where
  aes : aesMap projection
  unitAes : Option Aes
  unitField : Option BField
  dvAes : Option Aes
  logScale : aesMap Int
  points : List point

/-- One iteration's .unit check inside NewPlot's scan. -/
def stepUnit (c : Config) (a : Aes) (u : Option (Aes × BField)) :
    Except String (Option (Aes × BField)) :=
  match (c.aes.Get a).unitField with
  | none => .ok u
  | some f =>
    match u with
    | some _ => .error "at most one dimension may show .unit"
    | none => .ok (some (a, f))

/-- One iteration's .value check inside NewPlot's scan. -/
def stepDV (c : Config) (a : Aes) (d : Option Aes) : Except String (Option Aes) :=
  if (c.aes.Get a).dv then
    match d with
    | some _ => .error "at most one dimension may show .value"
    | none => .ok (some a)
  else .ok d

/-- NewPlot's scan over the aesthetics locating the .unit and .value bindings. -/
def findUnitDV (c : Config) :
    List Aes → Option (Aes × BField) → Option Aes →
      Except String (Option (Aes × BField) × Option Aes)
  | [], u, d => .ok (u, d)
  | a :: rest, u, d =>
    match stepUnit c a u with
    | .error e => .error e
    | .ok u =>
      match stepDV c a d with
      | .error e => .error e
      | .ok d => findUnitDV c rest u d

/-- Source: NewPlot — validates the unit/.value pairing and copies the bindings. -/
def NewPlot (c : Config) : Except String Plot :=
  match findUnitDV c aesList none none with
  | .error e => .error e
  | .ok ud =>
    match ud.1, ud.2 with
    | some (ua, _), none =>
      .error (".unit is mapped to the " ++ ua.Name ++
        " dimension, but no dimension shows .value")
    | none, some da =>
      .error (".value is mapped to the " ++ da.Name ++
        " dimension, but no dimension shows .unit")
    | u, d =>
      .ok { aes := c.aes.Copy, unitAes := u.map (fun x => x.1),
            unitField := u.map (fun x => x.2), dvAes := d,
            logScale := c.logScale, points := [] }

/-- A continuous value holding a looked-up metric
(source: value{kinds: kindContinuous, val: val} inside Plot.Add). -/
def contValue (v : Rat) : value :=
  { kinds := kindContinuous, key := ⟨[]⟩, val := v, summary := none, denom := ⟨[]⟩ }

/-- The fill closure of Plot.Add, threading the append-only points list.  The
source mutates one shared partial point and appends structural copies of it;
value-threading of pt is equivalent because every slot of an appended point is
set on its own expansion path before the terminal copy. -/
def fillAdd (parseFloat : String → Option Rat) (pa : aesMap projection) (dva : Option Aes)
    (r : Result) : List Aes → point → List point → List point
  | [], pt, acc => acc ++ [pt.Copy]
  | aes :: rest, pt, acc =>
    let proj := pa.Get aes
    if proj.dv then fillAdd parseFloat pa dva r rest pt acc
    else
      (projection.project parseFloat proj r).foldl (fun acc val =>
        match proj.unitField with
        | some uf =>
          match r.valueForUnit (val.key.get uf) with
          | none => acc
          | some mv =>
            fillAdd parseFloat pa dva r rest
              ((pointSetOpt pt dva (contValue mv)).Set aes val) acc
        | none => fillAdd parseFloat pa dva r rest (pt.Set aes val) acc) acc

/-- Source: Plot.Add — cartesian expansion of the per-aesthetic projections. -/
def Plot.Add (parseFloat : String → Option Rat) (p : Plot) (r : Result) : Plot :=
  { p with points := fillAdd parseFloat p.aes p.dvAes r aesList default p.points }

/-- Subslice s[a:b] of the underlying slice. -/
def subslice {T : Type} (s : List T) (a b : Nat) : List T := (s.drop a).take (b - a)

/-- Lookup in the association-list model of the Go map built by groupBy. -/
def alistGet {U V : Type} [DecidableEq U] (m : List (U × V)) (k : U) : Option V :=
  (m.find? (fun p => decide (p.1 = k))).map (fun p => p.2)

/-- Insert-or-replace in the association-list model of the Go map. -/
def alistSet {U V : Type} [DecidableEq U] (m : List (U × V)) (k : U) (v : V) :
    List (U × V) :=
  match m with
  | [] => [(k, v)]
  | p :: rest => if p.1 = k then (k, v) :: rest else p :: alistSet rest k v

/-- The loop of groupBy, verbatim from the source, including its flush condition
`val != startVal || i == len(s)-1` and the flushed run s[start:i]; fuel counts the
remaining loop iterations (s.length suffices for the initial i = 1). -/
def groupByLoop {T U : Type} [DecidableEq U] (s : List T) (grouper : T → U) :
    Nat → Nat → Nat → U → List (U × List T) → List U → List (U × List T) × List U
  | 0, _, _, _, out, keys => (out, keys)
  | fuel + 1, i, start, startVal, out, keys =>
    if h : i < s.length then
      let val := grouper (s.get ⟨i, h⟩)
      if val ≠ startVal ∨ i = s.length - 1 then
        match alistGet out startVal with
        | none =>
          groupByLoop s grouper fuel (i + 1) i val
            (alistSet out startVal (subslice s start i)) (keys ++ [startVal])
        | some old =>
          groupByLoop s grouper fuel (i + 1) i val
            (alistSet out startVal (old ++ subslice s start i)) keys
      else groupByLoop s grouper fuel (i + 1) start startVal out keys
    else (out, keys)

/-- Source: groupBy — groups s by grouper, keeping element order, and returns the
group map plus the keys in first-flush order. -/
def groupBy {T U : Type} [DecidableEq U] (s : List T) (grouper : T → U) :
    List (U × List T) × List U :=
  match s with
  | [] => ([], [])
  | s0 :: _ => groupByLoop s grouper s.length 1 0 (grouper s0) [] []

/-- Source: pointsKinds — the intersection of the kind bitsets at aes. -/
def pointsKinds (pts : List point) (aes : Aes) : Nat :=
  pts.foldl (fun kinds pt => kinds &&& (pt.Get aes).kinds) kindAll

/-- Source: pointsToSample — the continuous payloads at aes.  The source panics on
a non-continuous value; every caller guards with pointsKinds first. -/
def pointsToSample (pts : List point) (aes : Aes) : List Rat :=
  pts.map (fun pt => (pt.Get aes).val)

/-- Source: transformSummarize.  summarize abstracts the external statistics
provider benchmath.AssumeNothing.Summary. -/
def transformSummarize (summarize : List Rat → Rat → Summary) (pts : List point)
    (aes : Aes) (confidence : Rat) : Except String (List point) :=
  let kinds := pointsKinds pts aes
  if kinds &&& kindSummary ≠ 0 then .ok pts
  else if kinds &&& kindContinuous = 0 then
    .error ("transformSummarize: " ++ aes.Name ++ " data must be numeric")
  else
    let gk := groupBy pts (fun pt => pt.Set aes default)
    let out := gk.2.map (fun k =>
      let group := (alistGet gk.1 k).getD []
      let summary := summarize (pointsToSample group aes) confidence
      let v : value :=
        { kinds := kindContinuous ||| kindSummary ||| (kinds &&& kindRatio),
          key := ⟨[]⟩, val := summary.center, summary := some summary, denom := ⟨[]⟩ }
      (group.headD default).Set aes v)
    .ok out

/-- Stable insertion of x by a three-way comparator. -/
def insertCmp {T : Type} (c : T → T → Int) (x : T) : List T → List T
  | [] => [x]
  | y :: ys => if c x y ≤ 0 then x :: y :: ys else y :: insertCmp c x ys

/-- Sort by a three-way comparator, modelling slices.SortFunc; the theorems below
only evaluate it on concrete data. -/
def sortCmp {T : Type} (c : T → T → Int) : List T → List T
  | [] => []
  | x :: xs => insertCmp c x (sortCmp c xs)

/-- Source: transformCompare.  The first component of the result is the final
state of the caller's pts buffer (the source sorts the slice in place, after the
error checks).  summarize abstracts the statistics provider; Summary(sample, 1)
yields the sample median as Center.  cmpKeys.drop 1 models the source's
cmpKeys[1:], which would fault on an empty cmpKeys (unreachable: groups are
non-empty, so their key list is non-empty only when flushed — when cmpKeys is
empty the fold below emits nothing, as the source never reaches that state with
a baseline-headed group of two or more elements). -/
def transformCompare (summarize : List Rat → Rat → Summary) (pts : List point)
    (aesCompare aesRatio : Aes) : List point × Except String (List point) :=
  if pts.length = 0 then (pts, .ok [])
  else if pointsKinds pts aesRatio &&& kindContinuous = 0 then
    (pts, .error ("transformCompare: " ++ aesRatio.Name ++ " data must be numeric"))
  else
    let sorted := sortCmp (fun a b => (a.Get aesCompare).compare (b.Get aesCompare)) pts
    let cmpBase := (sorted.headD default).Get aesCompare
    let gk := groupBy sorted (fun pt => (pt.Set aesCompare default).Set aesRatio default)
    let median := fun (g : List point) => (summarize (pointsToSample g aesRatio) 1).center
    let out := gk.2.foldl (fun out k =>
      let group := (alistGet gk.1 k).getD []
      if (group.headD default).Get aesCompare ≠ cmpBase then out
      else
        let cg := groupBy group (fun pt => pt.Get aesCompare)
        let baseline := median ((alistGet cg.1 cmpBase).getD [])
        (cg.2.drop 1).foldl (fun out ck =>
          let ratio := median ((alistGet cg.1 ck).getD []) / baseline
          let p0 := ((alistGet cg.1 ck).getD []).headD default
          let ck := { ck with kinds := ck.kinds ||| kindRatio, denom := cmpBase.key }
          out ++ [(p0.Set aesCompare ck).Set aesRatio
            ({ kinds := kindContinuous ||| kindRatio, key := ⟨[]⟩, val := ratio,
               summary := none, denom := ⟨[]⟩ })]) out) []
    (sorted, .ok out)

/-- Source: Plot.TransformCompare — runs transformCompare on the plot's points
with the color aesthetic as comparison and the .value aesthetic as ratio; on
error the plot keeps its buffer as transformCompare left it.  When no aesthetic
is bound to .value the source would index the aesthetic array at -1 (a fault),
modelled as an error result. -/
def Plot.TransformCompare (summarize : List Rat → Rat → Summary) (p : Plot) :
    Plot × Option String :=
  match p.dvAes with
  | none => (p, some "no .value aesthetic")
  | some d =>
    let br := transformCompare summarize p.points Aes.AesColor d
    match br.2 with
    | .error e => ({ p with points := br.1 }, some e)
    | .ok pts => ({ p with points := pts }, none)

/-- Unit class of the external benchunit package. -/
inductive UnitClass where
  | decimal
  | binary
deriving DecidableEq, Repr

/-- Divisor/label pair from the external benchunit.CommonScale. -/
structure Scaler where
  factor : Rat
  pfx : String

/-- First-seen-order deduplication, modelling the lazily built set inside the
source's pointsUnits loop. -/
def dedupSeen (seen : List String) : List String → List String
  | [] => []
  | n :: rest => if n ∈ seen then dedupSeen seen rest else n :: dedupSeen (n :: seen) rest

/-- Source: Plot.pointsUnits — the distinct unit names at the unit aesthetic, in
first-seen order; empty when pts is empty or no unit field is bound. -/
def Plot.pointsUnits (p : Plot) (pts : List point) : List String :=
  match p.unitField, p.unitAes with
  | some uf, some ua =>
    if pts.length = 0 then []
    else dedupSeen [] (pts.map (fun pt => (pt.Get ua).key.get uf))
  | _, _ => []

/-- The lo/hi bounds loop of continuousScale (the source initializes both from the
first element and folds min/max over the rest). -/
def loHi (pts : List point) (aes : Aes) : Rat × Rat :=
  match pts with
  | [] => (0, 0)
  | pt0 :: rest =>
    rest.foldl (fun lh pt => (min lh.1 (pt.Get aes).val, max lh.2 (pt.Get aes).val))
      ((pt0.Get aes).val, (pt0.Get aes).val)

/-- Result bundle of continuousScale: the scale function, the value bounds and the
axis label. -/
structure ContScale where
  scale : Rat → Rat
  lo : Rat
  hi : Rat
  label : String

/-- Source: Plot.continuousScale.  commonScale abstracts benchunit.CommonScale and
classOf abstracts benchunit.ClassOf. -/
def Plot.continuousScale (commonScale : List Rat → UnitClass → Scaler)
    (classOf : String → UnitClass) (p : Plot) (pts : List point) (aes : Aes)
    (rescale : Bool) : Except String ContScale :=
  if pointsKinds pts aes &&& kindContinuous = 0 then
    .error (aes.Name ++ " data must be numeric")
  else
    let lh := loHi pts aes
    let proj := p.aes.Get aes
    if pts.length = 0 ∨ proj.dv = false then
      .ok { scale := fun v => v, lo := lh.1, hi := lh.2, label := proj.str }
    else
      let unitNames := p.pointsUnits pts
      let sp : (Rat → Rat) × String :=
        if rescale then
          let cls := if unitNames.length = 1 then classOf (unitNames.headD "")
            else UnitClass.decimal
          let scaler := commonScale [lh.2] cls
          (fun v => v / scaler.factor, scaler.pfx)
        else (fun v => v, "")
      let labels := unitNames.map (fun n => sp.2 ++ n)
      .ok { scale := sp.1, lo := lh.1, hi := lh.2, label := String.intercalate ", " labels }

/-- A plain discrete value with the zero key, as produced for unbound aesthetics. -/
def dVal : value :=
  { kinds := kindDiscrete, key := ⟨[]⟩, val := 0, summary := none, denom := ⟨[]⟩ }

/-- A continuous value holding x. -/
def cVal (x : Rat) : value :=
  { kinds := kindContinuous, key := ⟨[]⟩, val := x, summary := none, denom := ⟨[]⟩ }

/-- A discrete value keyed by the single field cmp = s. -/
def cmpVal (s : String) : value :=
  { kinds := kindDiscrete, key := ⟨[(⟨"cmp", false⟩, s)]⟩, val := 0, summary := none,
    denom := ⟨[]⟩ }

/-- A single-point collection, continuous at Y: input showing that
transformSummarize drops its one and only group. -/
def c1pts : List point := [⟨dVal, cVal 10, dVal, dVal, dVal⟩]

/-- Three points identical except for color A, B, C and Y values 10, 15, 5:
the worked Compare example of the specification. -/
def c2pts : List point :=
  [⟨dVal, cVal 10, cmpVal "A", dVal, dVal⟩,
   ⟨dVal, cVal 15, cmpVal "B", dVal, dVal⟩,
   ⟨dVal, cVal 5, cmpVal "C", dVal, dVal⟩]

/-- C1: on a one-point collection — continuous, not yet summarized at Y, with
exactly one distinct non-Y combination — transformSummarize returns the empty
collection for every statistics provider and confidence, instead of the one
point per distinct combination that the specification guarantees: groupBy never
flushes its final run. -/
theorem transformSummarize_drops_last_group :
    ∀ (summarize : List Rat → Rat → Summary) (confidence : Rat),
      (∀ pt ∈ c1pts, (pt.Get .AesY).kinds &&& kindSummary = 0 ∧
        (pt.Get .AesY).kinds &&& kindContinuous ≠ 0) ∧
      ((c1pts.map (fun pt => pt.Set .AesY default)).dedup.length = 1) ∧
      transformSummarize summarize c1pts .AesY confidence = .ok [] := by
  intro summarize confidence
  refine ⟨by decide, by decide, rfl⟩

/-- C2: on the specification's Compare example (colors A, B, C with Y values
10, 15, 5 and all other aesthetics equal, Y continuous everywhere),
transformCompare emits no output point at all — for every statistics provider —
instead of the two ratio points (B vs A, C vs A) the specification requires:
groupBy loses the final run both at the grouping and the per-color stage. -/
theorem transformCompare_empty_output_on_example :
    ∀ (summarize : List Rat → Rat → Summary),
      (pointsKinds c2pts .AesY &&& kindContinuous ≠ 0) ∧
      c2pts.length = 3 ∧
      (transformCompare summarize c2pts .AesColor .AesY).2 = .ok [] := by
  intro summarize
  refine ⟨by decide, by decide, rfl⟩

/-- A record whose external projections are all empty and that carries no metrics. -/
def rec0 : Result :=
  { projectKey := fun _ => ⟨[]⟩, projectValues := fun _ => [], valueForUnit := fun _ => none }

/-- C3 counterexample: projecting a record through the unbound (zero) projection
yields one value whose kind bitset is kindDiscrete — not the empty bitset the
claim asserts. -/
theorem project_unbound_kinds_not_empty :
    (projection.project (fun _ => none) {} rec0).map value.kinds = [kindDiscrete] ∧
      kindDiscrete ≠ 0 :=
  ⟨rfl, by decide⟩

/-- C3 amended: for every record and parser, an unbound projection (no iv, not the
dependent variable) yields exactly one value carrying exactly the Discrete kind
with the zero key. -/
theorem project_unbound_discrete (parseFloat : String → Option Rat) (p : projection)
    (r : Result) (hdv : p.dv = false) (hiv : p.iv = none) :
    projection.project parseFloat p r =
      [{ kinds := kindDiscrete, key := ⟨[]⟩, val := 0, summary := none, denom := ⟨[]⟩ }] := by
  simp [projection.project, hdv, hiv]

/-- Witness for the amended C3 at a concrete record and projection. -/
theorem project_unbound_discrete_witness :
    ({} : projection).dv = false ∧ ({} : projection).iv = none ∧
      projection.project (fun _ => none) {} rec0 =
        [{ kinds := kindDiscrete, key := ⟨[]⟩, val := 0, summary := none, denom := ⟨[]⟩ }] :=
  ⟨rfl, rfl, project_unbound_discrete (fun _ => none) {} rec0 rfl rfl⟩

/-- The summary bit of a kind set, as a testBit. -/
theorem land_kindSummary_ne_zero (x : Nat) :
    x &&& kindSummary ≠ 0 ↔ x.testBit 2 = true := by
  have h4 : kindSummary = 2 ^ 2 := rfl
  rw [h4, Nat.and_two_pow]
  cases h : x.testBit 2 <;> simp [h]

/-- The continuous bit of a kind set, as a testBit. -/
theorem land_kindContinuous_ne_zero (x : Nat) :
    x &&& kindContinuous ≠ 0 ↔ x.testBit 1 = true := by
  have h2 : kindContinuous = 2 ^ 1 := rfl
  rw [h2, Nat.and_two_pow]
  cases h : x.testBit 1 <;> simp [h]

/-- Bits of the kind intersection: pointsKinds has bit i exactly when kindAll has
it and every point's kind set at aes has it. -/
theorem pointsKinds_testBit (pts : List point) (aes : Aes) (i : Nat) :
    (pointsKinds pts aes).testBit i =
      (Nat.testBit kindAll i && pts.all (fun pt => ((pt.Get aes).kinds).testBit i)) := by
  unfold pointsKinds
  suffices h : ∀ acc : Nat,
      (pts.foldl (fun kinds pt => kinds &&& (pt.Get aes).kinds) acc).testBit i =
        (acc.testBit i && pts.all (fun pt => ((pt.Get aes).kinds).testBit i)) from h kindAll
  induction pts with
  | nil => intro acc; simp
  | cons pt pts ih =>
    intro acc
    simp [List.foldl_cons, ih, Nat.testBit_land, Bool.and_assoc]

/-- C6: if every point's value at aes carries the Summary kind, transformSummarize
returns the collection unchanged, with no error. -/
theorem transformSummarize_noop_on_summaries (summarize : List Rat → Rat → Summary)
    (pts : List point) (aes : Aes) (confidence : Rat)
    (h : ∀ pt ∈ pts, (pt.Get aes).kinds &&& kindSummary ≠ 0) :
    transformSummarize summarize pts aes confidence = .ok pts := by
  have hk : pointsKinds pts aes &&& kindSummary ≠ 0 := by
    rw [land_kindSummary_ne_zero, pointsKinds_testBit]
    have hall : kindAll.testBit 2 = true := by decide
    rw [hall, Bool.true_and, List.all_eq_true]
    intro pt hpt
    exact (land_kindSummary_ne_zero _).mp (h pt hpt)
  unfold transformSummarize
  simp [hk]

/-- Witness for C6: re-summarizing a concrete already-summarized collection is the
identity. -/
theorem transformSummarize_noop_on_summaries_witness :
    (∀ pt ∈ [(⟨dVal, { cVal 10 with kinds := kindContinuous ||| kindSummary }, dVal, dVal,
        dVal⟩ : point)], (pt.Get .AesY).kinds &&& kindSummary ≠ 0) ∧
    transformSummarize (fun l _ => ⟨l.headD 0, 0, 0⟩)
        [⟨dVal, { cVal 10 with kinds := kindContinuous ||| kindSummary }, dVal, dVal, dVal⟩]
        .AesY (95/100) =
      .ok [⟨dVal, { cVal 10 with kinds := kindContinuous ||| kindSummary }, dVal, dVal, dVal⟩] :=
  ⟨by decide, transformSummarize_noop_on_summaries _ _ _ _ (by decide)⟩

/-- C9: when some point's value at the ratio aesthetic (the .value aesthetic) does
not carry the Continuous kind, Plot.TransformCompare returns the plot completely
unchanged together with the error — the check fires before the in-place sort or
any other mutation of the buffer. -/
theorem transformCompare_error_leaves_points (summarize : List Rat → Rat → Summary)
    (p : Plot) (d : Aes) (hd : p.dvAes = some d)
    (h : ∃ pt ∈ p.points, (pt.Get d).kinds &&& kindContinuous = 0) :
    ∃ e, Plot.TransformCompare summarize p = (p, some e) := by
  obtain ⟨pt, hmem, hpt⟩ := h
  have hne : p.points ≠ [] := by
    intro h0
    rw [h0] at hmem
    cases hmem
  have hk : pointsKinds p.points d &&& kindContinuous = 0 := by
    by_contra hne2
    have hbit := (land_kindContinuous_ne_zero _).mp hne2
    rw [pointsKinds_testBit] at hbit
    rw [Bool.and_eq_true] at hbit
    obtain ⟨-, hall⟩ := hbit
    rw [List.all_eq_true] at hall
    exact absurd hpt ((land_kindContinuous_ne_zero _).mpr (hall pt hmem))
  have hlen : ¬ p.points.length = 0 := by
    simpa [List.length_eq_zero] using hne
  refine ⟨"transformCompare: " ++ d.Name ++ " data must be numeric", ?_⟩
  unfold Plot.TransformCompare
  rw [hd]
  simp only [transformCompare, if_neg hlen, if_pos hk]
  rw [← hd]

/-- A plot whose single point is discrete (not continuous) at the .value
aesthetic Y. -/
def c9plot : Plot :=
  { aes := default, unitAes := none, unitField := none, dvAes := some .AesY,
    logScale := ⟨0, 0, 0, 0, 0⟩, points := [⟨dVal, dVal, dVal, dVal, dVal⟩] }

/-- Witness for C9 at a concrete plot. -/
theorem transformCompare_error_leaves_points_witness :
    c9plot.dvAes = some .AesY ∧
    (∃ pt ∈ c9plot.points, (pt.Get .AesY).kinds &&& kindContinuous = 0) ∧
    ∃ e, Plot.TransformCompare (fun l _ => ⟨l.headD 0, 0, 0⟩) c9plot = (c9plot, some e) :=
  ⟨rfl, by decide,
    transformCompare_error_leaves_points (fun l _ => ⟨l.headD 0, 0, 0⟩) c9plot .AesY rfl
      (by decide)⟩

/-- C7: binding a field expression with exactly one non-composite leaf field (not
the .unit field) to an aesthetic and projecting a record through it yields, when
the key's string at that field parses as a number x, exactly one value that is
both Discrete (carrying the projected key) and Continuous (carrying x). -/
theorem project_single_field_parses_continuous (parseFloat : String → Option Rat)
    (c : Config) (a : Aes) (bp : BProj) (f : BField) (r : Result) (x : Rat)
    (hf : bp.fields = [f]) (ht : f.isTuple = false) (hn : f.name ≠ ".unit")
    (hx : parseFloat ((r.projectKey bp).get f) = some x) :
    projection.project parseFloat (((c.SetIV a bp)).aes.Get a) r =
      [{ kinds := kindDiscrete ||| kindContinuous, key := r.projectKey bp, val := x,
         summary := none, denom := ⟨[]⟩ }] := by
  have hproj : (c.SetIV a bp).aes.Get a =
      { iv := some bp, ivField := some f, unitField := none, dv := false } := by
    unfold Config.SetIV
    rw [hf]
    simp [ht, hn]
    cases a <;> simp [aesMap.Get, aesMap.Set]
  rw [hproj]
  simp [projection.project, hx]

/-- Witness for C7 at a concrete record, field and parser. -/
theorem project_single_field_parses_continuous_witness :
    ((⟨[⟨"n", false⟩]⟩ : BProj).fields = [⟨"n", false⟩]) ∧
    ((⟨"n", false⟩ : BField).isTuple = false) ∧
    ((⟨"n", false⟩ : BField).name ≠ ".unit") ∧
    ((fun s => if s = "42" then some (42 : Rat) else none)
        ((({ rec0 with projectKey := fun _ => ⟨[(⟨"n", false⟩, "42")]⟩ } :
          Result).projectKey ⟨[⟨"n", false⟩]⟩).get ⟨"n", false⟩) = some 42) ∧
    projection.project (fun s => if s = "42" then some (42 : Rat) else none)
        ((NewConfig.SetIV .AesX ⟨[⟨"n", false⟩]⟩).aes.Get .AesX)
        ({ rec0 with projectKey := fun _ => ⟨[(⟨"n", false⟩, "42")]⟩ }) =
      [{ kinds := kindDiscrete ||| kindContinuous, key := ⟨[(⟨"n", false⟩, "42")]⟩,
         val := 42, summary := none, denom := ⟨[]⟩ }] := by
  refine ⟨rfl, rfl, by decide, by decide, ?_⟩
  exact project_single_field_parses_continuous _ NewConfig .AesX ⟨[⟨"n", false⟩]⟩
    ⟨"n", false⟩ _ 42 rfl rfl (by decide) (by decide)

/-- The second component of the lo/hi pair fold is the plain max fold. -/
theorem foldl_pair_snd (rest : List point) (aes : Aes) :
    ∀ lh : Rat × Rat,
      (rest.foldl (fun lh pt => (min lh.1 (pt.Get aes).val, max lh.2 (pt.Get aes).val)) lh).2 =
        rest.foldl (fun h pt => max h (pt.Get aes).val) lh.2 := by
  induction rest with
  | nil => intro lh; rfl
  | cons pt rest ih => intro lh; simp [List.foldl_cons, ih]

/-- The max fold dominates its initial accumulator. -/
theorem le_foldl_max (l : List point) (aes : Aes) :
    ∀ a : Rat, a ≤ l.foldl (fun h pt => max h (pt.Get aes).val) a := by
  induction l with
  | nil => intro a; exact le_refl a
  | cons pt l ih =>
    intro a
    exact le_trans (le_max_left a ((pt.Get aes).val)) (ih (max a ((pt.Get aes).val)))

/-- The max fold dominates every member. -/
theorem foldl_max_ge_mem (l : List point) (aes : Aes) :
    ∀ a : Rat, ∀ pt ∈ l, (pt.Get aes).val ≤ l.foldl (fun h pt => max h (pt.Get aes).val) a := by
  induction l with
  | nil => intro a pt h; cases h
  | cons pt0 l ih =>
    intro a pt hmem
    rcases List.mem_cons.mp hmem with h | h
    · subst h
      exact le_trans (le_max_right a ((pt.Get aes).val))
        (le_foldl_max l aes (max a ((pt.Get aes).val)))
    · exact ih (max a ((pt0.Get aes).val)) pt h

/-- The max fold is attained by the accumulator or by a member. -/
theorem foldl_max_attained (l : List point) (aes : Aes) :
    ∀ a : Rat, l.foldl (fun h pt => max h (pt.Get aes).val) a = a ∨
      ∃ pt ∈ l, l.foldl (fun h pt => max h (pt.Get aes).val) a = (pt.Get aes).val := by
  induction l with
  | nil => intro a; exact Or.inl rfl
  | cons pt0 l ih =>
    intro a
    rcases ih (max a ((pt0.Get aes).val)) with h | h
    · rcases max_choice a ((pt0.Get aes).val) with hm | hm
      · exact Or.inl (by rw [List.foldl_cons, h, hm])
      · exact Or.inr ⟨pt0, List.mem_cons_self _ _, by rw [List.foldl_cons, h, hm]⟩
    · obtain ⟨pt, hmem, heq⟩ := h
      exact Or.inr ⟨pt, List.mem_cons_of_mem _ hmem, by rw [List.foldl_cons, heq]⟩

/-- The hi bound dominates every point's value at aes. -/
theorem loHi_hi_le (pts : List point) (aes : Aes) :
    ∀ pt ∈ pts, (pt.Get aes).val ≤ (loHi pts aes).2 := by
  cases pts with
  | nil => intro pt h; cases h
  | cons pt0 rest =>
    intro pt hmem
    unfold loHi
    rw [foldl_pair_snd]
    rcases List.mem_cons.mp hmem with h | h
    · subst h; exact le_foldl_max rest aes _
    · exact foldl_max_ge_mem rest aes _ pt h

/-- The hi bound is attained by some point. -/
theorem loHi_hi_mem (pts : List point) (aes : Aes) (h : pts ≠ []) :
    ∃ pt ∈ pts, (loHi pts aes).2 = (pt.Get aes).val := by
  cases pts with
  | nil => exact absurd rfl h
  | cons pt0 rest =>
    unfold loHi
    rw [foldl_pair_snd]
    rcases foldl_max_attained rest aes ((pt0.Get aes).val) with h | h
    · exact ⟨pt0, List.mem_cons_self _ _, h⟩
    · obtain ⟨pt, hmem, heq⟩ := h
      exact ⟨pt, List.mem_cons_of_mem _ hmem, heq⟩

/-- C8: with rescale requested on the .value aesthetic over a non-empty
all-continuous collection, continuousScale succeeds; its hi is the maximum of the
values at aes, the scaler is obtained by passing exactly the one-element
magnitude list [hi] to the unit-scaling provider — the universal quantification
over the provider shows lo is never passed — and the returned scale divides
every input by that scaler's divisor. -/
theorem continuousScale_rescale_uses_hi (commonScale : List Rat → UnitClass → Scaler)
    (classOf : String → UnitClass) (p : Plot) (pts : List point) (aes : Aes)
    (hne : pts ≠ []) (hdv : (p.aes.Get aes).dv = true)
    (hk : pointsKinds pts aes &&& kindContinuous ≠ 0) :
    ∃ r, p.continuousScale commonScale classOf pts aes true = .ok r ∧
      r.hi = (loHi pts aes).2 ∧
      (∀ pt ∈ pts, (pt.Get aes).val ≤ r.hi) ∧
      (∃ pt ∈ pts, r.hi = (pt.Get aes).val) ∧
      (∀ v, r.scale v = v /
        (commonScale [(loHi pts aes).2]
          (if (p.pointsUnits pts).length = 1 then classOf ((p.pointsUnits pts).headD "")
           else UnitClass.decimal)).factor) := by
  have h2 : ¬ (pts.length = 0 ∨ (p.aes.Get aes).dv = false) := by
    simp [hdv, List.length_eq_zero, hne]
  simp only [Plot.continuousScale, if_neg hk, if_neg h2, if_pos, if_true]
  exact ⟨_, rfl, rfl, loHi_hi_le pts aes, loHi_hi_mem pts aes hne, fun v => rfl⟩

/-- A plot whose Y aesthetic is the dependent variable. -/
def c8plot : Plot :=
  { aes := ⟨{}, { dv := true }, {}, {}, {}⟩, unitAes := none, unitField := none,
    dvAes := some .AesY, logScale := ⟨0, 0, 0, 0, 0⟩, points := [] }

/-- Two points, continuous at Y with values 4 and 10. -/
def c8pts : List point := [⟨dVal, cVal 4, dVal, dVal, dVal⟩, ⟨dVal, cVal 10, dVal, dVal, dVal⟩]

/-- Witness for C8 at a concrete plot, point set and providers. -/
theorem continuousScale_rescale_uses_hi_witness :
    c8pts ≠ [] ∧ (c8plot.aes.Get .AesY).dv = true ∧
    pointsKinds c8pts .AesY &&& kindContinuous ≠ 0 ∧
    ∃ r, c8plot.continuousScale (fun l _ => ⟨l.headD 1, "G"⟩) (fun _ => UnitClass.decimal)
        c8pts .AesY true = .ok r ∧
      r.hi = (loHi c8pts .AesY).2 ∧
      (∀ pt ∈ c8pts, (pt.Get .AesY).val ≤ r.hi) ∧
      (∃ pt ∈ c8pts, r.hi = (pt.Get .AesY).val) ∧
      (∀ v, r.scale v = v /
        ((fun (l : List Rat) (_ : UnitClass) => (⟨l.headD 1, "G"⟩ : Scaler)) [(loHi c8pts .AesY).2]
          (if (c8plot.pointsUnits c8pts).length = 1 then
            (fun _ => UnitClass.decimal) ((c8plot.pointsUnits c8pts).headD "")
           else UnitClass.decimal)).factor) :=
  ⟨by decide, rfl, by decide,
    continuousScale_rescale_uses_hi (fun l _ => ⟨l.headD 1, "G"⟩) (fun _ => UnitClass.decimal)
      c8plot c8pts .AesY (by decide) rfl (by decide)⟩

/-- A fold whose step only appends to its accumulator factors over the initial
accumulator. -/
theorem foldl_frame {α β : Type} (f : List α → β → List α)
    (hf : ∀ acc b, f acc b = acc ++ f [] b) :
    ∀ (l : List β) (acc : List α), l.foldl f acc = acc ++ l.foldl f [] := by
  intro l
  induction l with
  | nil => intro acc; simp
  | cons b l ih =>
    intro acc
    rw [List.foldl_cons, List.foldl_cons, ih (f acc b), ih (f [] b), hf acc b,
      List.append_assoc]

/-- The fill expansion only appends: its result is the incoming accumulator
followed by the points it produces from scratch. -/
theorem fillAdd_frame (parseFloat : String → Option Rat) (pa : aesMap projection)
    (dva : Option Aes) (r : Result) :
    ∀ (l : List Aes) (pt : point) (acc : List point),
      fillAdd parseFloat pa dva r l pt acc = acc ++ fillAdd parseFloat pa dva r l pt [] := by
  intro l
  induction l with
  | nil => intro pt acc; rfl
  | cons aes rest ih =>
    intro pt acc
    by_cases hdv : (pa.Get aes).dv = true
    · simp only [fillAdd, hdv, if_true]
      exact ih pt acc
    · simp only [fillAdd, hdv, if_false, Bool.false_eq_true]
      refine foldl_frame _ ?_ _ acc
      intro acc2 val
      cases hu : (pa.Get aes).unitField with
      | none => simp only [hu]; exact ih _ acc2
      | some uf =>
        simp only [hu]
        cases hm : r.valueForUnit (val.key.get uf) with
        | none => simp
        | some mv => exact ih _ acc2

/-- C10: every Add call leaves the previously appended points exactly in place and
only appends new points — the appended points are independent copies, untouched
by later fan-out iterations and later Add calls. -/
theorem add_appends_without_mutation (parseFloat : String → Option Rat) (p : Plot)
    (r : Result) :
    (Plot.Add parseFloat p r).points =
      p.points ++ (Plot.Add parseFloat { p with points := [] } r).points := by
  unfold Plot.Add
  exact fillAdd_frame parseFloat p.aes p.dvAes r aesList default p.points

/-- An aesthetic binding that is not the .value binding, not the unit binding, and
fans out to exactly one value on record r (unbound and ordinary field bindings). -/
def simpleFor (parseFloat : String → Option Rat) (pa : aesMap projection) (r : Result)
    (a : Aes) : Prop :=
  (pa.Get a).dv = false ∧ (pa.Get a).unitField = none ∧
    (projection.project parseFloat (pa.Get a) r).length = 1

/-- A projection list of length one is a singleton. -/
theorem project_singleton (parseFloat : String → Option Rat) (pj : projection) (r : Result)
    (h : (projection.project parseFloat pj r).length = 1) :
    ∃ v, projection.project parseFloat pj r = [v] := by
  cases hp : projection.project parseFloat pj r with
  | nil => rw [hp] at h; cases h
  | cons v vs =>
    cases vs with
    | nil => exact ⟨v, rfl⟩
    | cons w ws => rw [hp] at h; simp at h

/-- Expansion over a list of skipped or single-valued aesthetics appends exactly
one point. -/
theorem fillAdd_one (parseFloat : String → Option Rat) (pa : aesMap projection)
    (dva : Option Aes) (r : Result) :
    ∀ (l : List Aes), (∀ a ∈ l, (pa.Get a).dv = true ∨ simpleFor parseFloat pa r a) →
      ∀ (pt : point) (acc : List point),
        (fillAdd parseFloat pa dva r l pt acc).length = acc.length + 1 := by
  intro l
  induction l with
  | nil => intro _ pt acc; simp [fillAdd]
  | cons aes rest ih =>
    intro hl pt acc
    have hrest := fun a ha => hl a (List.mem_cons_of_mem _ ha)
    rcases hl aes (List.mem_cons_self _ _) with hdv | hs
    · simp only [fillAdd, hdv, if_true]
      exact ih hrest pt acc
    · obtain ⟨v, hv⟩ := project_singleton parseFloat (pa.Get aes) r hs.2.2
      simp only [fillAdd, hs.1, Bool.false_eq_true, if_false, hv, List.foldl_cons,
        List.foldl_nil, hs.2.1]
      exact ih hrest _ acc

/-- The per-candidate fold at the unit aesthetic appends one point per candidate
whose metric is present and none for an absent metric. -/
theorem fillAdd_unit_fold (parseFloat : String → Option Rat) (pa : aesMap projection)
    (dva : Option Aes) (r : Result) (rest : List Aes) (aes : Aes) (uf : BField)
    (hone : ∀ (pt2 : point) (acc2 : List point),
      (fillAdd parseFloat pa dva r rest pt2 acc2).length = acc2.length + 1) :
    ∀ (vals : List value) (pt : point) (acc : List point),
      ((vals.foldl (fun acc val =>
        match r.valueForUnit (val.key.get uf) with
        | none => acc
        | some mv =>
          fillAdd parseFloat pa dva r rest
            ((pointSetOpt pt dva (contValue mv)).Set aes val) acc) acc).length) =
      acc.length +
        (vals.filter (fun val => (r.valueForUnit (val.key.get uf)).isSome)).length := by
  intro vals
  induction vals with
  | nil => intro pt acc; simp
  | cons val vals ihv =>
    intro pt acc
    rw [List.foldl_cons, List.filter_cons]
    cases hm : r.valueForUnit (val.key.get uf) with
    | none =>
      simp only [hm, Option.isSome_none, Bool.false_eq_true, if_false]
      exact ihv pt acc
    | some mv =>
      simp only [hm, Option.isSome_some, if_pos]
      rw [ihv pt _, hone]
      simp only [List.length_cons]
      omega

/-- Core counting lemma for Add: over a list of aesthetics consisting of the
.value aesthetic d (skipped), at most one occurrence of the unit aesthetic u, and
otherwise single-valued bindings, the expansion appends one point per unit
candidate with a present metric when u occurs, and exactly one point otherwise. -/
theorem fillAdd_count (parseFloat : String → Option Rat) (pa : aesMap projection)
    (dva : Option Aes) (r : Result) (u d : Aes) (uf : BField)
    (hne : u ≠ d) (hud : (pa.Get u).dv = false) (huf : (pa.Get u).unitField = some uf)
    (hdd : (pa.Get d).dv = true) :
    ∀ (l : List Aes), (∀ a ∈ l, a = d ∨ a = u ∨ simpleFor parseFloat pa r a) →
      l.count u ≤ 1 →
      ∀ (pt : point) (acc : List point),
        (fillAdd parseFloat pa dva r l pt acc).length =
          acc.length + (if u ∈ l then
            ((projection.project parseFloat (pa.Get u) r).filter
              (fun val => (r.valueForUnit (val.key.get uf)).isSome)).length
          else 1) := by
  intro l
  induction l with
  | nil => intro _ _ pt acc; simp [fillAdd]
  | cons aes rest ih =>
    intro hl hcnt pt acc
    have hrest : ∀ a ∈ rest, a = d ∨ a = u ∨ simpleFor parseFloat pa r a :=
      fun a ha => hl a (List.mem_cons_of_mem _ ha)
    have hcntrest : rest.count u ≤ 1 := le_trans (List.count_le_count_cons u aes rest) hcnt
    rcases hl aes (List.mem_cons_self _ _) with heq | heq | hs
    · -- aes = d: the .value aesthetic is skipped
      subst heq
      have hmem2 : (u ∈ aes :: rest) ↔ u ∈ rest := by
        rw [List.mem_cons]
        constructor
        · intro h
          rcases h with h | h
          · exact absurd h hne
          · exact h
        · intro h
          exact Or.inr h
      simp only [fillAdd, hdd, if_true, hmem2]
      exact ih hrest hcntrest pt acc
    · -- aes = u: the unit aesthetic fans out with metric lookups
      replace heq : u = aes := heq.symm
      subst heq
      have hnotin : u ∉ rest := by
        intro hin
        have : 2 ≤ (u :: rest).count u := by
          rw [List.count_cons_self]
          have := List.count_pos_iff.mpr hin
          omega
        omega
      have hone : ∀ (pt2 : point) (acc2 : List point),
          (fillAdd parseFloat pa dva r rest pt2 acc2).length = acc2.length + 1 := by
        refine fillAdd_one parseFloat pa dva r rest ?_
        intro a ha
        rcases hrest a ha with rfl | rfl | hsa
        · exact Or.inl hdd
        · exact absurd ha hnotin
        · exact Or.inr hsa
      simp only [fillAdd, hud, Bool.false_eq_true, if_false, huf, List.mem_cons_self,
        if_pos]
      exact fillAdd_unit_fold parseFloat pa dva r rest u uf hone
        (projection.project parseFloat (pa.Get u) r) pt acc
    · -- single-valued binding
      have hneu : aes ≠ u := by
        intro h
        rw [h] at hs
        rw [hs.2.1] at huf
        cases huf
      have hmem : (u ∈ aes :: rest) ↔ u ∈ rest := by
        rw [List.mem_cons]
        constructor
        · intro h
          rcases h with h | h
          · exact absurd h.symm hneu
          · exact h
        · intro h
          exact Or.inr h
      obtain ⟨v, hv⟩ := project_singleton parseFloat (pa.Get aes) r hs.2.2
      simp only [fillAdd, hs.1, Bool.false_eq_true, if_false, hv, List.foldl_cons,
        List.foldl_nil, hs.2.1, hmem]
      exact ih hrest hcntrest _ acc

/-- C4: when the unit aesthetic u and the .value aesthetic d are distinct, and
every other aesthetic projects to exactly one value on record r, Plot.Add appends
exactly one point per unit candidate whose metric is present on the record —
candidates with an absent metric are dropped silently, producing no point and no
error. -/
theorem add_arity (parseFloat : String → Option Rat) (p : Plot) (r : Result)
    (u d : Aes) (uf : BField) (hne : u ≠ d)
    (hud : (p.aes.Get u).dv = false) (huf : (p.aes.Get u).unitField = some uf)
    (hdd : (p.aes.Get d).dv = true)
    (hs : ∀ a, a ≠ u → a ≠ d → simpleFor parseFloat p.aes r a) :
    (Plot.Add parseFloat p r).points.length = p.points.length +
      ((projection.project parseFloat (p.aes.Get u) r).filter
        (fun val => (r.valueForUnit (val.key.get uf)).isSome)).length := by
  unfold Plot.Add
  have hl : ∀ a ∈ aesList, a = d ∨ a = u ∨ simpleFor parseFloat p.aes r a := by
    intro a _
    by_cases h1 : a = d
    · exact Or.inl h1
    by_cases h2 : a = u
    · exact Or.inr (Or.inl h2)
    · exact Or.inr (Or.inr (hs a h2 h1))
  have hcnt : aesList.count u ≤ 1 := by cases u <;> decide
  have hmem : u ∈ aesList := by cases u <;> decide
  rw [fillAdd_count parseFloat p.aes p.dvAes r u d uf hne hud huf hdd aesList hl hcnt
    default p.points]
  rw [if_pos hmem]

/-- The unit-bound projection of the concrete Add witness. -/
def c4uProj : projection :=
  { iv := some ⟨[⟨".unit", false⟩]⟩, ivField := none, unitField := some ⟨".unit", false⟩,
    dv := false }

/-- A plot binding the unit sub-field to X and the dependent variable to Y. -/
def c4plot : Plot :=
  { aes := ⟨c4uProj, { dv := true }, {}, {}, {}⟩, unitAes := some .AesX,
    unitField := some ⟨".unit", false⟩, dvAes := some .AesY, logScale := ⟨0, 0, 0, 0, 0⟩,
    points := [] }

/-- A record with two unit candidates, ns and B/op, of which only ns has a metric. -/
def c4rec : Result :=
  { projectKey := fun _ => ⟨[]⟩,
    projectValues := fun _ =>
      [⟨[(⟨".unit", false⟩, "ns")]⟩, ⟨[(⟨".unit", false⟩, "B/op")]⟩],
    valueForUnit := fun s => if s = "ns" then some 5 else none }

/-- Every aesthetic of the Add witness other than X and Y is single-valued. -/
theorem c4_simple_aux :
    ∀ a, a ≠ Aes.AesX → a ≠ Aes.AesY → simpleFor (fun _ => none) c4plot.aes c4rec a := by
  intro a h1 h2
  cases a
  · exact absurd rfl h1
  · exact absurd rfl h2
  · exact ⟨rfl, rfl, rfl⟩
  · exact ⟨rfl, rfl, rfl⟩
  · exact ⟨rfl, rfl, rfl⟩

/-- Witness for C4: on the concrete plot and record, Add appends exactly one point
(the ns candidate) out of the two unit candidates. -/
theorem add_arity_witness :
    ((Aes.AesX : Aes) ≠ .AesY) ∧
    (c4plot.aes.Get .AesX).dv = false ∧
    (c4plot.aes.Get .AesX).unitField = some ⟨".unit", false⟩ ∧
    (c4plot.aes.Get .AesY).dv = true ∧
    (∀ a, a ≠ Aes.AesX → a ≠ Aes.AesY → simpleFor (fun _ => none) c4plot.aes c4rec a) ∧
    (Plot.Add (fun _ => none) c4plot c4rec).points.length = c4plot.points.length +
      ((projection.project (fun _ => none) (c4plot.aes.Get .AesX) c4rec).filter
        (fun val => (c4rec.valueForUnit (val.key.get ⟨".unit", false⟩)).isSome)).length :=
  ⟨by decide, rfl, rfl, rfl, c4_simple_aux,
    add_arity (fun _ => none) c4plot c4rec .AesX .AesY ⟨".unit", false⟩ (by decide) rfl rfl
      rfl c4_simple_aux⟩

/-- Count an optional binding as 0 or 1. -/
def optCnt {α : Type} (o : Option α) : Nat :=
  match o with
  | some _ => 1
  | none => 0

/-- How many of the aesthetics in l bind the unit sub-field. -/
def uCnt (c : Config) (l : List Aes) : Nat :=
  (l.filter (fun a => ((c.aes.Get a).unitField).isSome)).length

/-- How many of the aesthetics in l bind the dependent variable. -/
def dCnt (c : Config) (l : List Aes) : Nat :=
  (l.filter (fun a => (c.aes.Get a).dv)).length

/-- When the scan fails, some binding occurs twice. -/
theorem findUnitDV_err (c : Config) :
    ∀ (l : List Aes) (u : Option (Aes × BField)) (d : Option Aes) (e : String),
      findUnitDV c l u d = .error e →
        1 < uCnt c l + optCnt u ∨ 1 < dCnt c l + optCnt d := by
  intro l
  induction l with
  | nil => intro u d e h; cases h
  | cons a rest ih =>
    intro u d e h
    rw [findUnitDV] at h
    cases hfu : (c.aes.Get a).unitField with
    | some f =>
      cases u with
      | some uu =>
        left
        simp [uCnt, List.filter_cons, hfu, optCnt]
      | none =>
        simp only [stepUnit, hfu] at h
        cases hdv : (c.aes.Get a).dv with
        | true =>
          cases d with
          | some dd =>
            right
            simp [dCnt, List.filter_cons, hdv, optCnt]
          | none =>
            simp only [stepDV, hdv, if_true] at h
            rcases ih (some (a, f)) (some a) e h with hh | hh
            · left
              simp only [uCnt, List.filter_cons, hfu, Option.isSome_some, if_pos,
                optCnt] at hh ⊢
              simp at hh ⊢
              omega
            · right
              simp only [dCnt, List.filter_cons, hdv, if_pos, optCnt] at hh ⊢
              simp at hh ⊢
              omega
        | false =>
          simp only [stepDV, hdv, Bool.false_eq_true, if_false] at h
          rcases ih (some (a, f)) d e h with hh | hh
          · left
            simp only [uCnt, List.filter_cons, hfu, Option.isSome_some, if_pos,
              optCnt] at hh ⊢
            simp at hh ⊢
            omega
          · right
            simp only [dCnt, List.filter_cons, hdv, Bool.false_eq_true, if_false] at hh ⊢
            omega
    | none =>
      simp only [stepUnit, hfu] at h
      cases hdv : (c.aes.Get a).dv with
      | true =>
        cases d with
        | some dd =>
          right
          simp [dCnt, List.filter_cons, hdv, optCnt]
        | none =>
          simp only [stepDV, hdv, if_true] at h
          rcases ih u (some a) e h with hh | hh
          · left
            simp only [uCnt, List.filter_cons, hfu, Option.isSome_none,
              Bool.false_eq_true, if_false] at hh ⊢
            omega
          · right
            simp only [dCnt, List.filter_cons, hdv, if_pos, optCnt] at hh ⊢
            simp at hh ⊢
            omega
      | false =>
        simp only [stepDV, hdv, Bool.false_eq_true, if_false] at h
        rcases ih u d e h with hh | hh
        · left
          simp only [uCnt, List.filter_cons, hfu, Option.isSome_none,
            Bool.false_eq_true, if_false] at hh ⊢
          omega
        · right
          simp only [dCnt, List.filter_cons, hdv, Bool.false_eq_true, if_false] at hh ⊢
          omega

@[simp] theorem optCnt_some {α : Type} (x : α) : optCnt (some x) = 1 := rfl

@[simp] theorem optCnt_none {α : Type} : optCnt (none : Option α) = 0 := rfl

/-- Unit-binding count over a cons. -/
theorem uCnt_cons (c : Config) (a : Aes) (rest : List Aes) :
    uCnt c (a :: rest) =
      (if ((c.aes.Get a).unitField).isSome = true then 1 else 0) + uCnt c rest := by
  simp only [uCnt, List.filter_cons]
  split
  · simp [Nat.add_comm]
  · simp

/-- Dependent-variable-binding count over a cons. -/
theorem dCnt_cons (c : Config) (a : Aes) (rest : List Aes) :
    dCnt c (a :: rest) = (if (c.aes.Get a).dv = true then 1 else 0) + dCnt c rest := by
  simp only [dCnt, List.filter_cons]
  split
  · simp [Nat.add_comm]
  · simp

/-- When the scan succeeds, each binding occurred at most once, and the returned
state records exactly whether a binding was seen. -/
theorem findUnitDV_ok (c : Config) :
    ∀ (l : List Aes) (u : Option (Aes × BField)) (d : Option Aes)
      (s : Option (Aes × BField) × Option Aes),
      findUnitDV c l u d = .ok s →
        uCnt c l + optCnt u ≤ 1 ∧ dCnt c l + optCnt d ≤ 1 ∧
        optCnt s.1 = uCnt c l + optCnt u ∧ optCnt s.2 = dCnt c l + optCnt d := by
  intro l
  induction l with
  | nil =>
    intro u d s h
    cases h
    cases u <;> cases d <;> simp [uCnt, dCnt]
  | cons a rest ih =>
    intro u d s h
    rw [findUnitDV] at h
    rw [uCnt_cons, dCnt_cons]
    cases hfu : (c.aes.Get a).unitField with
    | some f =>
      simp only [hfu, Option.isSome_some, if_true]
      cases u with
      | some uu =>
        simp only [stepUnit, hfu] at h
        exact Except.noConfusion h
      | none =>
        simp only [stepUnit, hfu] at h
        cases hdv : (c.aes.Get a).dv with
        | true =>
          simp only [hdv, if_true]
          cases d with
          | some dd =>
            simp only [stepDV, hdv, if_true] at h
            exact Except.noConfusion h
          | none =>
            simp only [stepDV, hdv, if_true] at h
            obtain ⟨h1, h2, h3, h4⟩ := ih (some (a, f)) (some a) s h
            simp only [optCnt_some, optCnt_none] at h1 h2 h3 h4 ⊢
            omega
        | false =>
          simp only [hdv, Bool.false_eq_true, if_false]
          simp only [stepDV, hdv, Bool.false_eq_true, if_false] at h
          obtain ⟨h1, h2, h3, h4⟩ := ih (some (a, f)) d s h
          simp only [optCnt_some, optCnt_none] at h1 h3 ⊢
          omega
    | none =>
      simp only [hfu, Option.isSome_none, Bool.false_eq_true, if_false]
      simp only [stepUnit, hfu] at h
      cases hdv : (c.aes.Get a).dv with
      | true =>
        simp only [hdv, if_true]
        cases d with
        | some dd =>
          simp only [stepDV, hdv, if_true] at h
          exact Except.noConfusion h
        | none =>
          simp only [stepDV, hdv, if_true] at h
          obtain ⟨h1, h2, h3, h4⟩ := ih u (some a) s h
          simp only [optCnt_some, optCnt_none] at h2 h4 ⊢
          omega
      | false =>
        simp only [hdv, Bool.false_eq_true, if_false]
        simp only [stepDV, hdv, Bool.false_eq_true, if_false] at h
        obtain ⟨h1, h2, h3, h4⟩ := ih u d s h
        omega

/-- When each binding occurs at most once (counting the incoming state), the scan
succeeds. -/
theorem findUnitDV_ok_of (c : Config) :
    ∀ (l : List Aes) (u : Option (Aes × BField)) (d : Option Aes),
      uCnt c l + optCnt u ≤ 1 → dCnt c l + optCnt d ≤ 1 →
        ∃ s, findUnitDV c l u d = .ok s := by
  intro l
  induction l with
  | nil => intro u d _ _; exact ⟨(u, d), rfl⟩
  | cons a rest ih =>
    intro u d h1 h2
    rw [uCnt_cons] at h1
    rw [dCnt_cons] at h2
    rw [findUnitDV]
    cases hfu : (c.aes.Get a).unitField with
    | some f =>
      rw [hfu] at h1
      simp only [Option.isSome_some, if_true] at h1
      cases u with
      | some uu => simp only [optCnt_some] at h1; omega
      | none =>
        simp only [stepUnit, hfu]
        simp only [optCnt_none] at h1
        cases hdv : (c.aes.Get a).dv with
        | true =>
          rw [hdv] at h2
          simp only [if_true] at h2
          cases d with
          | some dd => simp only [optCnt_some] at h2; omega
          | none =>
            simp only [stepDV, hdv, if_true]
            refine ih (some (a, f)) (some a) ?_ ?_
            · simp only [optCnt_some]; omega
            · simp only [optCnt_some, optCnt_none] at h2 ⊢; omega
        | false =>
          rw [hdv] at h2
          simp only [Bool.false_eq_true, if_false] at h2
          simp only [stepDV, hdv, Bool.false_eq_true, if_false]
          refine ih (some (a, f)) d ?_ ?_
          · simp only [optCnt_some]; omega
          · omega
    | none =>
      rw [hfu] at h1
      simp only [Option.isSome_none, Bool.false_eq_true, if_false] at h1
      simp only [stepUnit, hfu]
      cases hdv : (c.aes.Get a).dv with
      | true =>
        rw [hdv] at h2
        simp only [if_true] at h2
        cases d with
        | some dd => simp only [optCnt_some] at h2; omega
        | none =>
          simp only [stepDV, hdv, if_true]
          refine ih u (some a) ?_ ?_
          · omega
          · simp only [optCnt_some, optCnt_none] at h2 ⊢; omega
      | false =>
        rw [hdv] at h2
        simp only [Bool.false_eq_true, if_false] at h2
        simp only [stepDV, hdv, Bool.false_eq_true, if_false]
        exact ih u d (by omega) (by omega)

/-- C5: NewPlot succeeds — returning a plot that holds the configuration's
per-aesthetic bindings — exactly when at most one aesthetic binds the unit
sub-field, at most one binds the dependent variable, and the two bindings are
present or absent together; in every other case it returns a configuration
error. -/
theorem newPlot_ok_iff (c : Config) :
    (∃ p, NewPlot c = .ok p ∧ p.aes = c.aes) ↔
      (uCnt c aesList ≤ 1 ∧ dCnt c aesList ≤ 1 ∧
        (uCnt c aesList = 1 ↔ dCnt c aesList = 1)) := by
  constructor
  · rintro ⟨p, hp, hpa⟩
    unfold NewPlot at hp
    cases hrec : findUnitDV c aesList none none with
    | error e =>
      rw [hrec] at hp
      exact Except.noConfusion hp
    | ok s =>
      rw [hrec] at hp
      obtain ⟨h1, h2, h3, h4⟩ := findUnitDV_ok c aesList none none s hrec
      simp only [optCnt_none, Nat.add_zero] at h1 h2 h3 h4
      obtain ⟨u', d'⟩ := s
      cases u' with
      | some uf' =>
        obtain ⟨ua, f⟩ := uf'
        cases d' with
        | none => exact Except.noConfusion hp
        | some da =>
          simp only [optCnt_some] at h3 h4
          refine ⟨h1, h2, ?_⟩
          constructor <;> intro <;> omega
      | none =>
        cases d' with
        | some da => exact Except.noConfusion hp
        | none =>
          simp only [optCnt_none] at h3 h4
          refine ⟨h1, h2, ?_⟩
          constructor <;> intro <;> omega
  · rintro ⟨h1, h2, h3⟩
    obtain ⟨s, hs⟩ := findUnitDV_ok_of c aesList none none
      (by simpa using h1) (by simpa using h2)
    obtain ⟨hh1, hh2, hh3, hh4⟩ := findUnitDV_ok c aesList none none s hs
    simp only [optCnt_none, Nat.add_zero] at hh3 hh4
    unfold NewPlot
    rw [hs]
    obtain ⟨u', d'⟩ := s
    cases u' with
    | some uf' =>
      obtain ⟨ua, f⟩ := uf'
      cases d' with
      | none =>
        exfalso
        simp only [optCnt_some] at hh3
        simp only [optCnt_none] at hh4
        have hu1 : uCnt c aesList = 1 := hh3.symm
        have hd0 : dCnt c aesList = 0 := hh4.symm
        have := h3.mp hu1
        omega
      | some da => exact ⟨_, rfl, rfl⟩
    | none =>
      cases d' with
      | some da =>
        exfalso
        simp only [optCnt_none] at hh3
        simp only [optCnt_some] at hh4
        have hu0 : uCnt c aesList = 0 := hh3.symm
        have hd1 : dCnt c aesList = 1 := hh4.symm
        have := h3.mpr hd1
        omega
      | none => exact ⟨_, rfl, rfl⟩

/-- Witness for C5: the zero configuration (no unit, no dependent variable) is
accepted and its bindings are copied. -/
theorem newPlot_ok_iff_witness :
    ∃ p, NewPlot NewConfig = .ok p ∧ p.aes = NewConfig.aes :=
  (newPlot_ok_iff NewConfig).mpr (by decide)
